import Mathlib

/-!
Verification of the miko-shell core pipeline: configuration model and
validation, project-name normalization, content-addressed image tags,
command resolution, argument binding into scripts, build orchestration
and the generated interactive startup script.

Go strings are modelled as lists of characters (runes); machine-level
byte data is modelled as lists of natural numbers below 256.
-/

namespace MikoShell

/-- A Go string modelled as its rune sequence. -/
abbrev Str := List Char

/-- Single quote character. -/
def sqCh : Char := Char.ofNat 39

/-- Double quote character. -/
def dqCh : Char := Char.ofNat 34

/-- Backslash character. -/
def bslCh : Char := Char.ofNat 92

/-- Semicolon character. -/
def semiCh : Char := Char.ofNat 59

/-- Newline character. -/
def nlCh : Char := Char.ofNat 10

/-- Tab character. -/
def tabCh : Char := Char.ofNat 9

/-- Space character. -/
def spCh : Char := ' '

/-- Dollar character. -/
def dollarCh : Char := Char.ofNat 36

/-- Backquote character. -/
def bqCh : Char := Char.ofNat 96

/-- Dash character. -/
def dashCh : Char := '-'

/-- Colon character. -/
def colonCh : Char := ':'

/-! ## Configuration data model (config.go) -/

/-- `ContainerBuild` from config.go: custom image build configuration. -/
structure ContainerBuild where
  dockerfile : Str
  context : Str
  args : List (Str × Str)
deriving DecidableEq, Repr

/-- `Container` from config.go. -/
structure Container where
  provider : Str
  image : Str
  build : Option ContainerBuild
  setup : List Str
deriving DecidableEq, Repr

/-- `Script` from config.go: a named script with its command list. -/
structure Script where
  name : Str
  description : Str
  commands : List Str
deriving DecidableEq, Repr

/-- `Shell` from config.go (`startup` maps to `InitHook`). -/
structure Shell where
  initHook : List Str
  scripts : List Script
deriving DecidableEq, Repr

/-- `Config` from config.go: the root configuration entity. -/
structure Config where
  name : Str
  container : Container
  shell : Shell
deriving DecidableEq, Repr

/-- `Config.GetScript` from config.go: linear scan over the declared
scripts returning the first one whose name matches. -/
def Config.getScript (c : Config) (name : Str) : Option Script :=
  c.shell.scripts.find? (fun script => script.name = name)

/-! ## Argument binder (client.go `GetCommandsAsStringWithArgs`) -/

/-- The five-character replacement for a single quote used by
`strings.ReplaceAll(arg, "'", "'\"'\"'")` in client.go. -/
def quintEsc : Str := [sqCh, dqCh, sqCh, dqCh, sqCh]

/-- `strings.ReplaceAll(arg, "'", "'\"'\"'")` from client.go: every
single-quote rune is replaced by `quintEsc`, all other runes are kept. -/
def replaceQuote : Str → Str
  | [] => []
  | c :: cs => if c = sqCh then quintEsc ++ replaceQuote cs else c :: replaceQuote cs

/-- One quoted argument as built by the loop body in client.go:
`"'" + escaped + "'"`. -/
def quoteArg (arg : Str) : Str := sqCh :: (replaceQuote arg ++ [sqCh])

/-- The `argSetup` accumulation loop from client.go: starts from
`"set -- "` and appends each quoted argument followed by a space. -/
def argSetup (args : List Str) : Str :=
  args.foldl (fun acc arg => acc ++ (quoteArg arg ++ [spCh])) ("set -- ").data

/-- `Script.GetCommandsAsStringWithArgs` from client.go: join commands
with `" && "`; with no arguments return the joined string, otherwise
prepend the positional-parameter setup clause and `"; "`. -/
def Script.getCommandsAsStringWithArgs (s : Script) (args : List Str) : Str :=
  let command := List.intercalate (" && ").data s.commands
  if args = [] then command
  else argSetup args ++ ("; ").data ++ command

/-- `Script.GetCommandsAsString` from client.go. -/
def Script.getCommandsAsString (s : Script) : Str :=
  s.getCommandsAsStringWithArgs []

/-! ## A model of POSIX shell tokenization

To settle the argument round-trip claim we model the quoting and
field-splitting fragment of POSIX shell command-line reading: single
quotes protect every character up to the closing quote; double quotes
protect up to the closing double quote; backslash escapes the next
character; unquoted blanks separate fields; an unquoted semicolon
terminates the current command.  Constructs whose evaluation would go
beyond plain word recognition (expansions, globbing, operators other
than `;`, comments) make the tokenizer return `none`, so every `some`
answer is a faithful reading of the POSIX word-recognition rules. -/

/-- Quoting mode of the tokenizer: outside quotes, inside single
quotes, or inside double quotes. -/
inductive QMode where
  | norm
  | insq
  | indq
deriving DecidableEq, Repr

/-- Characters that, unquoted, would trigger shell behavior beyond
word recognition (expansion, globbing, other operators, comments). -/
def shellSpecial (c : Char) : Bool :=
  c = dollarCh ∨ c = bqCh ∨ c = Char.ofNat 38 ∨ c = Char.ofNat 124 ∨
  c = Char.ofNat 60 ∨ c = Char.ofNat 62 ∨ c = Char.ofNat 40 ∨ c = Char.ofNat 41 ∨
  c = Char.ofNat 42 ∨ c = Char.ofNat 63 ∨ c = Char.ofNat 91 ∨ c = Char.ofNat 126 ∨
  c = Char.ofNat 35

/-- Characters that, inside double quotes, would trigger expansion or
escaping rather than stand for themselves. -/
def dqSpecial (c : Char) : Bool :=
  c = dollarCh ∨ c = bqCh ∨ c = bslCh

/-- POSIX word recognition for one command: returns the list of fields
of the first command together with the input remaining after an
unquoted `;` (or `[]` at end of input), or `none` when the input uses
an unmodelled construct or has an unterminated quote.  `cur` is the
word being built, `started` records whether the current word has been
opened (quotes open a word even when it stays empty), `acc` the fields
already completed. -/
def tokenize : Str → QMode → Str → Bool → List Str → Option (List Str × Str)
  | [], .norm, cur, started, acc =>
    some (if started then acc ++ [cur] else acc, [])
  | [], .insq, _, _, _ => none
  | [], .indq, _, _, _ => none
  | c :: rest, .norm, cur, started, acc =>
    if c = sqCh then tokenize rest .insq cur true acc
    else if c = dqCh then tokenize rest .indq cur true acc
    else if c = bslCh then
      match rest with
      | [] => none
      | d :: rest2 => tokenize rest2 .norm (cur ++ [d]) true acc
    else if c = spCh ∨ c = tabCh ∨ c = nlCh then
      tokenize rest .norm [] false (if started then acc ++ [cur] else acc)
    else if c = semiCh then
      some (if started then acc ++ [cur] else acc, rest)
    else if shellSpecial c then none
    else tokenize rest .norm (cur ++ [c]) true acc
  | c :: rest, .insq, cur, started, acc =>
    if c = sqCh then tokenize rest .norm cur started acc
    else tokenize rest .insq (cur ++ [c]) started acc
  | c :: rest, .indq, cur, started, acc =>
    if c = dqCh then tokenize rest .norm cur started acc
    else if dqSpecial c then none
    else tokenize rest .indq (cur ++ [c]) started acc
termination_by input _ _ _ _ => input.length
decreasing_by all_goals simp_wf <;> omega

/-! ## Name normalization (config.go `NormalizeName`)

The first step of `NormalizeName` runs the transform chain
`norm.NFD ∘ runes.Remove(runes.In(unicode.Mn)) ∘ norm.NFC` from the
external library `golang.org/x/text`; that library is outside this
repository, so the step is modelled as an explicit function parameter
`translit`.  The subsequent lowercasing (`strings.ToLower`) is modelled
on ASCII letters: every rune the transform chain can output that
lowercases into `[a-z]` is already ASCII (non-ASCII runes whose
lowercase form is ASCII carry canonical decompositions and are mapped
to ASCII by the chain itself), and all other non-ASCII runes are
collapsed to `-` by the following step regardless of case. -/

/-- Is the character one of `[a-z0-9]` (the characters the cleanup
regular expression `[^a-z0-9]+` preserves)? -/
def isLowerAlnum (c : Char) : Bool :=
  (97 ≤ c.toNat ∧ c.toNat ≤ 122) ∨ (48 ≤ c.toNat ∧ c.toNat ≤ 57)

/-- Is the character allowed in a normalized name (`[a-z0-9-]`)? -/
def validOut (c : Char) : Bool := isLowerAlnum c ∨ c = dashCh

/-- ASCII lowercasing of one rune (see the section comment). -/
def goLowerChar (c : Char) : Char :=
  if 65 ≤ c.toNat ∧ c.toNat ≤ 90 then Char.ofNat (c.toNat + 32) else c

/-- One step of the replacement of maximal runs of `[^a-z0-9]` by a
single dash: keep an allowed character, and emit a dash for a
disallowed one unless the output already starts with a dash. -/
def collapseStep (c : Char) (acc : Str) : Str :=
  if isLowerAlnum c then c :: acc
  else
    match acc with
    | d :: _ => if d = dashCh then acc else dashCh :: acc
    | [] => [dashCh]

/-- `regexp.MustCompile("[^a-z0-9]+").ReplaceAllString(s, "-")` from
config.go: every maximal run of disallowed characters becomes one dash. -/
def collapseNonAlnum (l : Str) : Str := l.foldr collapseStep []

/-- `strings.Trim(s, "-")` from config.go: drop leading and trailing
dashes. -/
def trimDash (l : Str) : Str :=
  ((l.dropWhile (fun c => c = dashCh)).reverse.dropWhile (fun c => c = dashCh)).reverse

/-- `NormalizeName` from config.go, with the external Unicode
transform chain passed as `translit` (see the section comment):
transliterate, lowercase, collapse disallowed runs to dashes, trim
dashes, and fall back to `"project"` when nothing remains. -/
def normalizeName (translit : Str → Str) (name : Str) : Str :=
  let n1 := translit name
  let n2 := n1.map goLowerChar
  let n3 := collapseNonAlnum n2
  let n4 := trimDash n3
  if n4 = [] then ("project").data else n4

/-! ## SHA-256 and the configuration hash (config.go `GetConfigHashFromFile`)

`GetConfigHashFromFile` feeds the raw file bytes to Go's
`crypto/sha256`, renders the digest in lowercase hexadecimal and keeps
the first 12 characters.  SHA-256 itself is embedded here concretely
(FIPS 180-4) over byte lists, with 32-bit words as naturals reduced
modulo `2 ^ 32`. -/

/-- Truncation to a 32-bit word. -/
def w32 (n : Nat) : Nat := n % 4294967296

/-- Right rotation of a 32-bit word by `n` bits. -/
def rotr (n x : Nat) : Nat := w32 (x / 2 ^ n + x * 2 ^ (32 - n))

/-- Bitwise complement of a 32-bit word. -/
def not32 (x : Nat) : Nat := Nat.xor x 4294967295

/-- SHA-256 `Ch` function. -/
def shaCh (x y z : Nat) : Nat := Nat.xor (Nat.land x y) (Nat.land (not32 x) z)

/-- SHA-256 `Maj` function. -/
def shaMaj (x y z : Nat) : Nat :=
  Nat.xor (Nat.land x y) (Nat.xor (Nat.land x z) (Nat.land y z))

/-- SHA-256 `Σ0`. -/
def bigSigma0 (x : Nat) : Nat := Nat.xor (rotr 2 x) (Nat.xor (rotr 13 x) (rotr 22 x))

/-- SHA-256 `Σ1`. -/
def bigSigma1 (x : Nat) : Nat := Nat.xor (rotr 6 x) (Nat.xor (rotr 11 x) (rotr 25 x))

/-- SHA-256 `σ0`. -/
def smallSigma0 (x : Nat) : Nat := Nat.xor (rotr 7 x) (Nat.xor (rotr 18 x) (x / 2 ^ 3))

/-- SHA-256 `σ1`. -/
def smallSigma1 (x : Nat) : Nat := Nat.xor (rotr 17 x) (Nat.xor (rotr 19 x) (x / 2 ^ 10))

/-- The 64 SHA-256 round constants (FIPS 180-4, in decimal). -/
def shaK : List Nat :=
  [1116352408, 1899447441, 3049323471, 3921009573,
   961987163, 1508970993, 2453635748, 2870763221,
   3624381080, 310598401, 607225278, 1426881987,
   1925078388, 2162078206, 2614888103, 3248222580,
   3835390401, 4022224774, 264347078, 604807628,
   770255983, 1249150122, 1555081692, 1996064986,
   2554220882, 2821834349, 2952996808, 3210313671,
   3336571891, 3584528711, 113926993, 338241895,
   666307205, 773529912, 1294757372, 1396182291,
   1695183700, 1986661051, 2177026350, 2456956037,
   2730485921, 2820302411, 3259730800, 3345764771,
   3516065817, 3600352804, 4094571909, 275423344,
   430227734, 506948616, 659060556, 883997877,
   958139571, 1322822218, 1537002063, 1747873779,
   1955562222, 2024104815, 2227730452, 2361852424,
   2428436474, 2756734187, 3204031479, 3329325298]

/-- SHA-256 working state: eight 32-bit words. -/
structure Hash8 where
  a : Nat
  b : Nat
  c : Nat
  d : Nat
  e : Nat
  f : Nat
  g : Nat
  h : Nat
deriving DecidableEq, Repr

/-- The SHA-256 initial hash value (FIPS 180-4, in decimal). -/
def shaH0 : Hash8 :=
  ⟨1779033703, 3144134277, 1013904242, 2773480762,
   1359893119, 2600822924, 528734635, 1541459225⟩

/-- The length of a message in bits, encoded as eight big-endian bytes. -/
def lenBE8 (n : Nat) : List Nat :=
  [n / 2 ^ 56 % 256, n / 2 ^ 48 % 256, n / 2 ^ 40 % 256, n / 2 ^ 32 % 256,
   n / 2 ^ 24 % 256, n / 2 ^ 16 % 256, n / 2 ^ 8 % 256, n % 256]

/-- SHA-256 message padding: append `0x80`, enough zero bytes and the
64-bit big-endian bit length so that the total length is a multiple of
64 bytes. -/
def padBytes (msg : List Nat) : List Nat :=
  msg ++ 128 :: List.replicate ((119 - msg.length % 64) % 64) 0 ++ lenBE8 (8 * msg.length)

/-- Split a byte list into 64-byte blocks; the fuel bounds the number
of blocks and is in practice the length of the list. -/
def toBlocksAux : Nat → List Nat → List (List Nat)
  | 0, _ => []
  | _, [] => []
  | fuel + 1, l => l.take 64 :: toBlocksAux fuel (l.drop 64)

/-- Split a byte list into 64-byte blocks. -/
def toBlocks (l : List Nat) : List (List Nat) :=
  toBlocksAux l.length l

/-- Big-endian grouping of bytes into 32-bit words. -/
def bytesToWords : List Nat → List Nat
  | b0 :: b1 :: b2 :: b3 :: rest =>
    (b0 * 2 ^ 24 + b1 * 2 ^ 16 + b2 * 2 ^ 8 + b3) :: bytesToWords rest
  | _ => []

/-- Extend the message schedule `n` more words; the accumulator holds
the words produced so far, most recent first. -/
def extendSchedule : Nat → List Nat → List Nat
  | 0, ws => ws
  | n + 1, ws =>
    extendSchedule n
      (w32 (smallSigma1 (ws.getD 1 0) + ws.getD 6 0 + smallSigma0 (ws.getD 14 0) + ws.getD 15 0) :: ws)

/-- The 64-word message schedule of one block. -/
def schedule (block : List Nat) : List Nat :=
  (extendSchedule 48 (bytesToWords block).reverse).reverse

/-- One SHA-256 compression round. -/
def shaRound (st : Hash8) (k w : Nat) : Hash8 :=
  let t1 := w32 (st.h + bigSigma1 st.e + shaCh st.e st.f st.g + k + w)
  let t2 := w32 (bigSigma0 st.a + shaMaj st.a st.b st.c)
  ⟨w32 (t1 + t2), st.a, st.b, st.c, w32 (st.d + t1), st.e, st.f, st.g⟩

/-- Compression of one 64-byte block. -/
def compressBlock (st : Hash8) (block : List Nat) : Hash8 :=
  let fin := (shaK.zip (schedule block)).foldl (fun s p => shaRound s p.1 p.2) st
  ⟨w32 (st.a + fin.a), w32 (st.b + fin.b), w32 (st.c + fin.c), w32 (st.d + fin.d),
   w32 (st.e + fin.e), w32 (st.f + fin.f), w32 (st.g + fin.g), w32 (st.h + fin.h)⟩

/-- A 32-bit word as four big-endian bytes. -/
def wordBE4 (n : Nat) : List Nat :=
  [n / 2 ^ 24 % 256, n / 2 ^ 16 % 256, n / 2 ^ 8 % 256, n % 256]

/-- SHA-256 of a byte list: the 32-byte digest. -/
def sha256 (msg : List Nat) : List Nat :=
  let st := (toBlocks (padBytes msg)).foldl compressBlock shaH0
  wordBE4 st.a ++ wordBE4 st.b ++ wordBE4 st.c ++ wordBE4 st.d ++
  wordBE4 st.e ++ wordBE4 st.f ++ wordBE4 st.g ++ wordBE4 st.h

/-- One lowercase hexadecimal digit. -/
def hexDigit (n : Nat) : Char :=
  if n < 10 then Char.ofNat (48 + n) else Char.ofNat (87 + n)

/-- Lowercase hexadecimal rendering of bytes, as produced by Go's
`fmt.Sprintf("%x", ...)`. -/
def bytesToHex : List Nat → Str
  | [] => []
  | b :: bs => hexDigit (b / 16 % 16) :: hexDigit (b % 16) :: bytesToHex bs

/-- `GetConfigHashFromFile` from config.go, applied to the raw bytes
of the configuration file: hex-encode the SHA-256 digest of the bytes
and keep the first 12 characters. -/
def getConfigHashFromFile (data : List Nat) : Str :=
  (bytesToHex (sha256 data)).take 12

/-! ## Image tag derivation (client.go `GetImageTag`) -/

/-- `Client.GetImageTag` from client.go, with the configuration file
content passed as raw bytes: `fmt.Sprintf("%s:%s", c.config.Name, hash)`.
The project name is used verbatim, exactly as stored in the
configuration. -/
def getImageTag (cfg : Config) (configBytes : List Nat) : Str :=
  cfg.name ++ colonCh :: getConfigHashFromFile configBytes

/-! ## Configuration validation (config.go `LoadConfigFromFile`, lines 119-144)

The YAML parse itself is external library code; validation starts from
the parsed `Config` value and mirrors the default-setting and checks
performed after unmarshalling. -/

/-- Validation errors raised by the loader. -/
inductive ConfigError where
  | invalidProvider (p : Str)
  | missingImageOrBuild
  | missingDockerfile
deriving DecidableEq, Repr

/-- The default-setting and validation steps of `LoadConfigFromFile`
(and identically `LoadConfig`): default the provider to docker, check
the provider, require image or build, and when build is present
require a dockerfile and default its context to `"."`. -/
def validateConfig (c0 : Config) : Except ConfigError Config :=
  let provider := if c0.container.provider = [] then ("docker").data else c0.container.provider
  let c := { c0 with container := { c0.container with provider := provider } }
  if c.container.provider ≠ ("docker").data ∧ c.container.provider ≠ ("podman").data then
    .error (.invalidProvider c.container.provider)
  else if c.container.image = [] ∧ c.container.build = none then
    .error .missingImageOrBuild
  else
    match c.container.build with
    | some b =>
      if b.dockerfile = [] then .error .missingDockerfile
      else
        let b2 := if b.context = [] then { b with context := (".").data } else b
        .ok { c with container := { c.container with build := some b2 } }
    | none => .ok c

/-! ## Command resolution (run command, `Client.RunCommand`) -/

/-- What a `run` invocation does after the image is available:
either list the declared scripts or execute an argument vector in the
container. -/
inductive RunOutcome where
  | listScripts
  | exec (argv : List Str)
deriving DecidableEq, Repr

/-- The dispatch performed by the `run` cobra command combined with
`Client.RunCommand`: no arguments lists the scripts; a first argument
naming a declared script runs that script through `/bin/sh -c` with
the remaining arguments bound; anything else is passed to the engine
verbatim. -/
def runDispatch (cfg : Config) (args : List Str) : RunOutcome :=
  match args with
  | [] => .listScripts
  | name :: rest =>
    match cfg.getScript name with
    | some s => .exec [("/bin/sh").data, ("-c").data, s.getCommandsAsStringWithArgs rest]
    | none => .exec (name :: rest)

/-! ## Build orchestration (client.go `Client.BuildImage`) -/

/-- Calls made to the container engine. -/
inductive EngineCall where
  | removeImage (tag : Str)
  | buildImage (tag : Str)
deriving DecidableEq, Repr

/-- `Client.BuildImage(force)` from client.go as a trace over the
engine interface, with the engine's answers supplied as booleans:
when `force` is set and the tag exists, remove the image first and
abort on removal failure; then always call the engine's `BuildImage`.
Returns the ordered engine calls and whether the build succeeded. -/
def clientBuildImage (force tagExists removeOk buildOk : Bool) (tag : Str) :
    List EngineCall × Bool :=
  if force ∧ tagExists then
    if removeOk then ([.removeImage tag, .buildImage tag], buildOk)
    else ([.removeImage tag], false)
  else ([.buildImage tag], buildOk)

/-! ## Interactive startup script (container.go `RunShellWithStartup`)

Both providers generate the same script text; only the engine binary
differs. -/

/-- The startup script body built by `RunShellWithStartup`:
`#!/bin/sh`, `set -e`, each startup command under a comment, and a
final `exec /bin/sh`. -/
def startupScriptBody (hooks : List Str) : Str :=
  ("#!/bin/sh").data ++ [nlCh] ++ ("set -e").data ++ [nlCh] ++ [nlCh] ++
  (hooks.foldr (fun cmd acc =>
    ("# Startup command").data ++ [nlCh] ++ cmd ++ [nlCh] ++ [nlCh] ++ acc) []) ++
  ("# Start interactive shell").data ++ [nlCh] ++ ("exec /bin/sh").data ++ [nlCh]

/-- The quoted here-document wrapper that writes the startup script to
`/tmp/startup.sh`, marks it executable and execs it. -/
def heredocWrap (body : Str) : Str :=
  ("cat > /tmp/startup.sh << ").data ++ sqCh :: ("MIKO_SCRIPT_EOF").data ++ sqCh :: nlCh ::
  (body ++ [nlCh] ++ ("MIKO_SCRIPT_EOF").data ++ [nlCh] ++
   ("chmod +x /tmp/startup.sh").data ++ [nlCh] ++ ("exec /tmp/startup.sh").data)

/-- `RunShellWithStartup` from container.go, as the argument vector
handed to the engine's run: `none` means no startup commands are
declared and the plain `RunShell` path is taken; otherwise the
here-document wrapper runs under `/bin/sh -c`. -/
def runShellWithStartupCommand (cfg : Config) : Option (List Str) :=
  if cfg.shell.initHook = [] then none
  else some [("/bin/sh").data, ("-c").data, heredocWrap (startupScriptBody cfg.shell.initHook)]

/-- Modelled from the spec: the environment-propagation mechanism the
specification describes for the interactive startup script — snapshot
the exported environment before and after the startup commands,
persist the difference to a profile fragment, and have the interactive
shell source that fragment.  This construction exists nowhere in the
repository; it is written out only to compare it with the script the
code actually generates. -/
def specSnapshotScriptBody (hooks : List Str) : Str :=
  ("#!/bin/sh").data ++ [nlCh] ++ ("set -e").data ++ [nlCh] ++
  ("export -p > /tmp/env_before").data ++ [nlCh] ++
  (hooks.foldr (fun cmd acc => cmd ++ [nlCh] ++ acc) []) ++
  ("export -p > /tmp/env_after").data ++ [nlCh] ++
  ("comm -13 /tmp/env_before /tmp/env_after > /tmp/miko_env_fragment").data ++ [nlCh] ++
  ("exec /bin/sh -c ").data ++ sqCh :: (". /tmp/miko_env_fragment && exec /bin/sh").data ++ [sqCh, nlCh]

/-- The sequence of quoted arguments produced by the binder loop. -/
def quotedSeq (args : List Str) : Str :=
  args.foldr (fun a acc => quoteArg a ++ spCh :: acc) []

/-- No two adjacent dashes (the relation used to state that a
normalized name never contains `--`). -/
def NoTwoDash (a b : Char) : Prop := ¬(a = dashCh ∧ b = dashCh)

instance (a b : Char) : Decidable (NoTwoDash a b) := by
  unfold NoTwoDash
  infer_instance

/-- The invariants of a normalized name: only `[a-z0-9-]` characters,
non-empty, no leading or trailing dash, no two adjacent dashes. -/
def ValidName (l : Str) : Prop :=
  (∀ c ∈ l, validOut c = true) ∧ l ≠ [] ∧
  (∀ c, l.head? = some c → c ≠ dashCh) ∧
  (∀ c, l.getLast? = some c → c ≠ dashCh) ∧
  List.Chain' NoTwoDash l

/-- Is a loader result a successfully validated configuration? -/
def isOkE : Except ConfigError Config → Bool
  | .ok _ => true
  | .error _ => false

/-! ## Concrete sample data used by witnesses and counterexamples -/

/-- A minimal valid container section: docker provider, image only. -/
def sampleContainer : Container := ⟨("docker").data, ("alpine").data, none, []⟩

/-- A configuration declaring both `container.image` and
`container.build` at the same time. -/
def bothSetConfig : Config :=
  ⟨("p").data, ⟨("docker").data, ("alpine").data,
    some ⟨("Dockerfile").data, (".").data, []⟩, []⟩, ⟨[], []⟩⟩

/-- A sample script named `test`. -/
def testScript : Script := ⟨("test").data, [], [("echo t").data]⟩

/-- A configuration declaring the single script `test`. -/
def testConfig : Config := ⟨("p").data, sampleContainer, ⟨[], [testScript]⟩⟩

/-- A configuration with one startup command that exports a variable. -/
def hookConfig : Config :=
  ⟨("p").data, sampleContainer, ⟨[("export FOO=bar").data], []⟩⟩

/-- First of two scripts sharing the name `dup`. -/
def dupFirst : Script := ⟨("dup").data, ("first").data, [("echo 1").data]⟩

/-- Second of two scripts sharing the name `dup`. -/
def dupSecond : Script := ⟨("dup").data, ("second").data, [("echo 2").data]⟩

/-- A configuration with two scripts named `dup`. -/
def dupConfig : Config := ⟨("p").data, sampleContainer, ⟨[], [dupFirst, dupSecond]⟩⟩

/-! ## Tokenizer stepping lemmas -/

lemma tok_norm_sq (r cur : Str) (started : Bool) (acc : List Str) :
    tokenize (sqCh :: r) .norm cur started acc = tokenize r .insq cur true acc := by
  rw [tokenize.eq_def]; simp

lemma tok_norm_dq (r cur : Str) (started : Bool) (acc : List Str) :
    tokenize (dqCh :: r) .norm cur started acc = tokenize r .indq cur true acc := by
  rw [tokenize.eq_def]; simp [dqCh, sqCh]

lemma tok_norm_space (r cur : Str) (started : Bool) (acc : List Str) :
    tokenize (spCh :: r) .norm cur started acc =
    tokenize r .norm [] false (if started then acc ++ [cur] else acc) := by
  rw [tokenize.eq_def]; simp [spCh, sqCh, dqCh, bslCh]

lemma tok_norm_semi (r cur : Str) (started : Bool) (acc : List Str) :
    tokenize (semiCh :: r) .norm cur started acc =
    some (if started then acc ++ [cur] else acc, r) := by
  rw [tokenize.eq_def]; simp [semiCh, sqCh, dqCh, bslCh, spCh, tabCh, nlCh]

lemma tok_norm_ord (c : Char) (r cur : Str) (started : Bool) (acc : List Str)
    (h1 : ¬c = sqCh) (h2 : ¬c = dqCh) (h3 : ¬c = bslCh)
    (h4 : ¬(c = spCh ∨ c = tabCh ∨ c = nlCh)) (h5 : ¬c = semiCh)
    (h6 : ¬shellSpecial c = true) :
    tokenize (c :: r) .norm cur started acc = tokenize r .norm (cur ++ [c]) true acc := by
  rw [tokenize.eq_def]; simp [h1, h2, h3, h4, h5, h6]

lemma tok_insq_close (r cur : Str) (started : Bool) (acc : List Str) :
    tokenize (sqCh :: r) .insq cur started acc = tokenize r .norm cur started acc := by
  rw [tokenize.eq_def]; simp

lemma tok_insq_ch (c : Char) (r cur : Str) (started : Bool) (acc : List Str) (h : ¬c = sqCh) :
    tokenize (c :: r) .insq cur started acc = tokenize r .insq (cur ++ [c]) started acc := by
  rw [tokenize.eq_def]; simp [h]

lemma tok_indq_close (r cur : Str) (started : Bool) (acc : List Str) :
    tokenize (dqCh :: r) .indq cur started acc = tokenize r .norm cur started acc := by
  rw [tokenize.eq_def]; simp

lemma tok_indq_ch (c : Char) (r cur : Str) (started : Bool) (acc : List Str)
    (h1 : ¬c = dqCh) (h2 : ¬dqSpecial c = true) :
    tokenize (c :: r) .indq cur started acc = tokenize r .indq (cur ++ [c]) started acc := by
  rw [tokenize.eq_def]; simp [h1, h2]

/-- Reading escaped argument content inside single quotes recovers the
original characters: the quoted rendering of `s` followed by a closing
quote appends exactly `s` to the word being built. -/
lemma tok_sq_content (s : Str) : ∀ (cur r : Str) (acc : List Str),
    tokenize (replaceQuote s ++ sqCh :: r) .insq cur true acc =
    tokenize r .norm (cur ++ s) true acc := by
  induction s with
  | nil => intro cur r acc; simp [replaceQuote, tok_insq_close]
  | cons c cs ih =>
    intro cur r acc
    by_cases hc : c = sqCh
    · subst hc
      have hsplit : replaceQuote (sqCh :: cs) ++ sqCh :: r =
          sqCh :: dqCh :: sqCh :: dqCh :: sqCh :: (replaceQuote cs ++ sqCh :: r) := by
        simp [replaceQuote, quintEsc]
      rw [hsplit, tok_insq_close, tok_norm_dq,
        tok_indq_ch sqCh _ _ _ _ (by decide) (by decide),
        tok_indq_close, tok_norm_sq, ih]
      simp
    · have hsplit : replaceQuote (c :: cs) ++ sqCh :: r =
          c :: (replaceQuote cs ++ sqCh :: r) := by
        simp [replaceQuote, hc]
      rw [hsplit, tok_insq_ch c _ _ _ _ hc, ih]
      simp

/-- A single-quoted argument followed by a space is read as exactly one
field whose content is the original argument. -/
lemma tok_quoteArg (a r : Str) (acc : List Str) :
    tokenize (quoteArg a ++ spCh :: r) .norm [] false acc =
    tokenize r .norm [] false (acc ++ [a]) := by
  have hsplit : quoteArg a ++ spCh :: r = sqCh :: (replaceQuote a ++ sqCh :: spCh :: r) := by
    simp [quoteArg]
  rw [hsplit, tok_norm_sq, tok_sq_content, tok_norm_space]
  simp

/-- The `argSetup` loop is `"set -- "` followed by the quoted argument
sequence. -/
lemma argSetup_eq (args : List Str) :
    argSetup args = ("set -- ").data ++ quotedSeq args := by
  suffices h : ∀ (init : Str), args.foldl (fun acc arg => acc ++ (quoteArg arg ++ [spCh])) init =
      init ++ quotedSeq args by
    exact h _
  induction args with
  | nil => intro init; simp [quotedSeq]
  | cons a as ih =>
    intro init
    simp only [List.foldl_cons, ih, quotedSeq, List.foldr_cons]
    simp [quotedSeq]

/-- Reading the quoted argument sequence appends exactly the original
arguments, one field each. -/
lemma tok_quotedSeq (args : List Str) : ∀ (r : Str) (acc : List Str),
    tokenize (quotedSeq args ++ r) .norm [] false acc =
    tokenize r .norm [] false (acc ++ args) := by
  induction args with
  | nil => intro r acc; simp [quotedSeq]
  | cons a as ih =>
    intro r acc
    have hsplit : quotedSeq (a :: as) ++ r = quoteArg a ++ spCh :: (quotedSeq as ++ r) := by
      simp [quotedSeq]
    rw [hsplit, tok_quoteArg, ih]
    simp

/-- Reading the literal `"set -- "` yields the two fields `set` and
`--`. -/
lemma tok_setWords (r : Str) :
    tokenize (("set -- ").data ++ r) .norm [] false [] =
    tokenize r .norm [] false [['s', 'e', 't'], ['-', '-']] := by
  have hdata : ("set -- ").data = 's' :: 'e' :: 't' :: spCh :: '-' :: '-' :: spCh :: [] := by
    decide
  rw [hdata]
  simp only [List.cons_append, List.nil_append]
  rw [tok_norm_ord 's' _ _ _ _ (by decide) (by decide) (by decide) (by decide) (by decide)
      (by decide),
    tok_norm_ord 'e' _ _ _ _ (by decide) (by decide) (by decide) (by decide) (by decide)
      (by decide),
    tok_norm_ord 't' _ _ _ _ (by decide) (by decide) (by decide) (by decide) (by decide)
      (by decide),
    tok_norm_space,
    tok_norm_ord '-' _ _ _ _ (by decide) (by decide) (by decide) (by decide) (by decide)
      (by decide),
    tok_norm_ord '-' _ _ _ _ (by decide) (by decide) (by decide) (by decide) (by decide)
      (by decide),
    tok_norm_space]
  simp

/-- C1.  Argument-binding round-trip: for every argument list supplied
to a script, a POSIX-compliant shell reading the command string
produced by `GetCommandsAsStringWithArgs` recognizes the first command
as the word `set`, the word `--`, and then exactly one field per
argument whose content is the original argument string unchanged —
including arguments containing single quotes, double quotes, spaces or
shell metacharacters.  Since `set -- w1 w2 …` assigns `$1, $2, …` in
order, each bound string is received unchanged as exactly one
positional parameter. -/
theorem claim_C1_arg_binding_roundtrip (s : Script) (args : List Str) (h : args ≠ []) :
    tokenize (s.getCommandsAsStringWithArgs args) .norm [] false [] =
    some (("set").data :: ("--").data :: args,
      spCh :: List.intercalate (" && ").data s.commands) := by
  have hsemi : ("; ").data = semiCh :: spCh :: [] := by decide
  unfold Script.getCommandsAsStringWithArgs
  rw [if_neg h, argSetup_eq, hsemi]
  have hassoc : (("set -- ").data ++ quotedSeq args) ++ (semiCh :: spCh :: []) ++
      List.intercalate (" && ").data s.commands =
      ("set -- ").data ++ (quotedSeq args ++ semiCh :: spCh ::
        List.intercalate (" && ").data s.commands) := by
    simp
  rw [hassoc, tok_setWords, tok_quotedSeq, tok_norm_semi]
  simp

/-- C1 witness: a concrete argument containing a single quote, a
space, a double quote and a dollar sign round-trips as one field. -/
theorem claim_C1_arg_binding_roundtrip_witness :
    tokenize (Script.getCommandsAsStringWithArgs
        ⟨("greet").data, [], [("echo ok").data]⟩
        [['a', sqCh, 'b', spCh, dqCh, 'c', dollarCh, 'd']]) .norm [] false [] =
    some (("set").data :: ("--").data :: [['a', sqCh, 'b', spCh, dqCh, 'c', dollarCh, 'd']],
      spCh :: List.intercalate (" && ").data [("echo ok").data]) :=
  claim_C1_arg_binding_roundtrip ⟨("greet").data, [], [("echo ok").data]⟩
    [['a', sqCh, 'b', spCh, dqCh, 'c', dollarCh, 'd']] (by simp)

/-- Character-level view of `strings.ReplaceAll(arg, "'", "'\"'\"'")`:
each rune maps to itself, except the single quote which maps to the
five-character escape sequence. -/
lemma replaceQuote_bind (a : Str) :
    replaceQuote a = a.flatMap (fun c => if c = sqCh then quintEsc else [c]) := by
  induction a with
  | nil => simp [replaceQuote]
  | cons c cs ih =>
    by_cases hc : c = sqCh
    · simp [replaceQuote, hc, ih]
    · simp [replaceQuote, hc, ih]

/-- The quoted argument sequence, one quoted argument and one space
per argument. -/
lemma quotedSeq_bind (args : List Str) :
    quotedSeq args = args.flatMap (fun a => quoteArg a ++ [spCh]) := by
  induction args with
  | nil => rfl
  | cons a as ih =>
    simp only [quotedSeq, List.foldr_cons, List.flatMap_cons] at ih ⊢
    rw [ih]
    simp

/-- C2.  Argument-binder construction: the command string is the
script's commands joined with `" && "`; with no arguments exactly that
joined string and nothing else; with arguments, the prefix `set -- `
followed by each argument single-quoted with every embedded single
quote replaced by the five-character sequence `'"'"'`, then a `; `
separator, then the joined commands. -/
theorem claim_C2_binder_construction (s : Script) (args : List Str) :
    s.getCommandsAsStringWithArgs args =
    if args = [] then List.intercalate (" && ").data s.commands
    else
      ("set -- ").data ++
        (args.flatMap (fun a =>
          sqCh :: ((a.flatMap (fun c =>
            if c = sqCh then [sqCh, dqCh, sqCh, dqCh, sqCh] else [c])) ++ [sqCh, spCh]))) ++
        semiCh :: spCh :: List.intercalate (" && ").data s.commands := by
  by_cases h : args = []
  · simp [Script.getCommandsAsStringWithArgs, h]
  · have hsemi : ("; ").data = semiCh :: spCh :: [] := by decide
    rw [if_neg h]
    unfold Script.getCommandsAsStringWithArgs
    rw [if_neg h, argSetup_eq, quotedSeq_bind, hsemi]
    have hbody : (fun a => quoteArg a ++ [spCh]) = (fun a =>
        sqCh :: ((a.flatMap (fun c =>
          if c = sqCh then [sqCh, dqCh, sqCh, dqCh, sqCh] else [c])) ++ [sqCh, spCh])) := by
      funext a
      simp [quoteArg, replaceQuote_bind, quintEsc]
    rw [hbody]
    simp

/-! ## C4: the configuration hash -/

/-- The SHA-256 digest always has 32 bytes. -/
lemma sha256_length (msg : List Nat) : (sha256 msg).length = 32 := by
  simp [sha256, wordBE4]

/-- Hexadecimal rendering doubles the length. -/
lemma bytesToHex_length (bs : List Nat) : (bytesToHex bs).length = 2 * bs.length := by
  induction bs with
  | nil => simp [bytesToHex]
  | cons b t ih => simp [bytesToHex, ih]; omega

/-- C4.  Tag-suffix derivation: `GetConfigHashFromFile` returns
exactly the first 12 hexadecimal characters of the SHA-256 digest of
the raw file bytes (and that truncation always has length 12), so
byte-identical files always receive the same 12-character suffix; the
bytes are hashed as they are, with no parsing or canonicalization. -/
theorem claim_C4_config_hash (data other : List Nat) :
    getConfigHashFromFile data = (bytesToHex (sha256 data)).take 12 ∧
    (getConfigHashFromFile data).length = 12 ∧
    (data = other → getConfigHashFromFile data = getConfigHashFromFile other) := by
  refine ⟨rfl, ?_, fun h => by rw [h]⟩
  have h1 : (bytesToHex (sha256 data)).length = 64 := by
    rw [bytesToHex_length, sha256_length]
  simp [getConfigHashFromFile, h1]

/-- C4 witness: the digest of the empty byte sequence. -/
theorem claim_C4_config_hash_witness :
    getConfigHashFromFile [] = (bytesToHex (sha256 [])).take 12 ∧
    (getConfigHashFromFile []).length = 12 ∧
    ([] = ([] : List Nat) → getConfigHashFromFile [] = getConfigHashFromFile []) :=
  claim_C4_config_hash [] []

/-- Sanity check against the FIPS 180-4 test vector: the SHA-256
digest of the empty message starts with `e3b0c44298fc`. -/
theorem sha256_empty_test_vector :
    getConfigHashFromFile [] = ("e3b0c44298fc").data := by decide

/-! ## C3: name normalization -/

lemma collapseStep_alnum {c : Char} (acc : Str) (hx : isLowerAlnum c = true) :
    collapseStep c acc = c :: acc := by
  rw [collapseStep.eq_def, if_pos hx]

lemma collapseStep_nil {c : Char} (hx : ¬isLowerAlnum c = true) :
    collapseStep c [] = [dashCh] := by
  rw [collapseStep.eq_def, if_neg hx]

lemma collapseStep_cons {c : Char} (d : Char) (t : Str) (hx : ¬isLowerAlnum c = true) :
    collapseStep c (d :: t) = if d = dashCh then d :: t else dashCh :: d :: t := by
  rw [collapseStep.eq_def, if_neg hx]

lemma isLowerAlnum_ne_dash {c : Char} (h : isLowerAlnum c = true) : c ≠ dashCh := by
  intro he; subst he; revert h; decide

lemma validOut_cases {c : Char} (h : validOut c = true) :
    isLowerAlnum c = true ∨ c = dashCh := by
  simpa [validOut] using h

lemma goLower_fix {c : Char} (h : validOut c = true) : goLowerChar c = c := by
  rcases validOut_cases h with h' | h'
  · have hr : (97 ≤ c.toNat ∧ c.toNat ≤ 122) ∨ (48 ≤ c.toNat ∧ c.toNat ≤ 57) := by
      simpa [isLowerAlnum] using h'
    rw [goLowerChar, if_neg]
    rintro ⟨h1, h2⟩
    rcases hr with ⟨a, b⟩ | ⟨a, b⟩ <;> omega
  · subst h'; decide

lemma map_goLower_fix {l : Str} (h : ∀ c ∈ l, validOut c = true) :
    l.map goLowerChar = l := by
  induction l with
  | nil => rfl
  | cons c t ih =>
    rw [List.map_cons, goLower_fix (h c (by simp)), ih (fun d hd => h d (by simp [hd]))]

lemma collapse_cons (x : Char) (xs : Str) :
    collapseNonAlnum (x :: xs) = collapseStep x (collapseNonAlnum xs) := rfl

lemma collapse_chars : ∀ (l : Str), ∀ c ∈ collapseNonAlnum l, validOut c = true := by
  intro l
  induction l with
  | nil => intro c hc; simp [collapseNonAlnum] at hc
  | cons x xs ih =>
    intro c hc
    rw [collapse_cons] at hc
    by_cases hx : isLowerAlnum x = true
    · rw [collapseStep_alnum _ hx] at hc
      rcases List.mem_cons.mp hc with h | h
      · subst h; simp [validOut, hx]
      · exact ih c h
    · cases hA : collapseNonAlnum xs with
      | nil =>
        rw [hA, collapseStep_nil hx] at hc
        simp at hc
        subst hc; decide
      | cons d t =>
        rw [hA, collapseStep_cons d t hx] at hc
        by_cases hd : d = dashCh
        · rw [if_pos hd] at hc
          exact ih c (hA ▸ hc)
        · rw [if_neg hd] at hc
          rcases List.mem_cons.mp hc with h | h
          · subst h; decide
          · exact ih c (hA ▸ h)

lemma collapse_chain : ∀ (l : Str), List.Chain' NoTwoDash (collapseNonAlnum l) := by
  intro l
  induction l with
  | nil => simp [collapseNonAlnum]
  | cons x xs ih =>
    rw [collapse_cons]
    by_cases hx : isLowerAlnum x = true
    · rw [collapseStep_alnum _ hx]
      refine List.chain'_cons'.mpr ⟨?_, ih⟩
      intro b _
      exact fun hb => isLowerAlnum_ne_dash hx hb.1
    · cases hA : collapseNonAlnum xs with
      | nil => rw [collapseStep_nil hx]; simp
      | cons d t =>
        rw [collapseStep_cons d t hx]
        by_cases hd : d = dashCh
        · rw [if_pos hd]; exact hA ▸ ih
        · rw [if_neg hd]
          refine List.chain'_cons'.mpr ⟨?_, hA ▸ ih⟩
          intro b hb
          simp at hb
          subst hb
          exact fun hb2 => hd hb2.2

lemma collapse_fix : ∀ (l : Str), (∀ c ∈ l, validOut c = true) →
    List.Chain' NoTwoDash l → collapseNonAlnum l = l := by
  intro l
  induction l with
  | nil => intro _ _; rfl
  | cons x xs ih =>
    intro hv hch
    rw [collapse_cons, ih (fun d hd => hv d (by simp [hd])) hch.tail]
    by_cases hx : isLowerAlnum x = true
    · rw [collapseStep_alnum _ hx]
    · have hxd : x = dashCh := by
        rcases validOut_cases (hv x (by simp)) with h | h
        · exact absurd h hx
        · exact h
      cases xs with
      | nil => rw [collapseStep_nil hx, hxd]
      | cons d t =>
        have hd : ¬d = dashCh := by
          have h2 := List.chain'_cons.mp hch
          intro hdd
          exact h2.1 ⟨hxd, hdd⟩
        rw [collapseStep_cons d t hx, if_neg hd, hxd]

lemma dropWhile_head_not (p : Char → Bool) : ∀ (l : Str) (c : Char),
    (l.dropWhile p).head? = some c → p c = false := by
  intro l
  induction l with
  | nil => intro c hc; simp at hc
  | cons x t ih =>
    intro c hc
    by_cases hp : p x
    · rw [List.dropWhile_cons, if_pos hp] at hc
      exact ih c hc
    · rw [List.dropWhile_cons, if_neg hp] at hc
      simp at hc
      subst hc
      simpa using hp

lemma getLast?_of_suffix {s l : Str} (hs : s <:+ l) (hne : s ≠ []) :
    s.getLast? = l.getLast? := by
  obtain ⟨t, rfl⟩ := hs
  rw [List.getLast?_append]
  cases hcase : s.getLast? with
  | none => exact absurd (by simpa using hcase) hne
  | some a => simp

lemma chain'_rev_of {l : Str} (h : List.Chain' NoTwoDash l) :
    List.Chain' NoTwoDash l.reverse := by
  rw [List.chain'_reverse]
  exact h.imp (fun a b hab => fun hba => hab ⟨hba.2, hba.1⟩)

lemma trimDash_chain {l : Str} (h : List.Chain' NoTwoDash l) :
    List.Chain' NoTwoDash (trimDash l) := by
  unfold trimDash
  have h1 := h.infix (List.dropWhile_suffix (fun c => decide (c = dashCh))).isInfix
  have h2 := chain'_rev_of h1
  have h3 := h2.infix (List.dropWhile_suffix (fun c => decide (c = dashCh))).isInfix
  exact chain'_rev_of h3

lemma trimDash_mem {l : Str} {c : Char} (h : c ∈ trimDash l) : c ∈ l := by
  unfold trimDash at h
  rw [List.mem_reverse] at h
  have h1 := (List.dropWhile_suffix _).subset h
  rw [List.mem_reverse] at h1
  exact (List.dropWhile_suffix _).subset h1

lemma trimDash_head {l : Str} {c : Char} (h : (trimDash l).head? = some c) : c ≠ dashCh := by
  unfold trimDash at h
  rw [List.head?_reverse] at h
  have hne : ((l.dropWhile (fun c => c = dashCh)).reverse.dropWhile (fun c => c = dashCh)) ≠ [] := by
    intro h0
    rw [h0] at h
    simp at h
  rw [getLast?_of_suffix (List.dropWhile_suffix _) hne, List.getLast?_reverse] at h
  have hp := dropWhile_head_not _ _ _ h
  simpa using hp

lemma trimDash_last {l : Str} {c : Char} (h : (trimDash l).getLast? = some c) : c ≠ dashCh := by
  unfold trimDash at h
  rw [List.getLast?_reverse] at h
  have hp := dropWhile_head_not _ _ _ h
  simpa using hp

lemma dropWhile_id_of_head {p : Char → Bool} {l : Str}
    (h : ∀ c, l.head? = some c → p c = false) : l.dropWhile p = l := by
  cases l with
  | nil => rfl
  | cons x t => rw [List.dropWhile_cons, if_neg (by simp [h x rfl])]

lemma trimDash_fix {l : Str} (h1 : ∀ c, l.head? = some c → c ≠ dashCh)
    (h2 : ∀ c, l.getLast? = some c → c ≠ dashCh) : trimDash l = l := by
  unfold trimDash
  have e1 : l.dropWhile (fun c => decide (c = dashCh)) = l :=
    dropWhile_id_of_head (fun c hc => by simpa using h1 c hc)
  rw [e1]
  have e2 : l.reverse.dropWhile (fun c => decide (c = dashCh)) = l.reverse :=
    dropWhile_id_of_head (fun c hc => by
      simpa using h2 c (by rwa [List.head?_reverse] at hc))
  rw [e2, List.reverse_reverse]

lemma validName_project : ValidName ("project").data := by
  refine ⟨by decide, by decide, by decide, by decide, ?_⟩
  simp [List.chain'_cons, NoTwoDash]
  decide

lemma normalizeName_valid (translit : Str → Str) (x : Str) :
    ValidName (normalizeName translit x) := by
  simp only [normalizeName]
  by_cases h0 : trimDash (collapseNonAlnum ((translit x).map goLowerChar)) = []
  · rw [if_pos h0]; exact validName_project
  · rw [if_neg h0]
    refine ⟨?_, h0, ?_, ?_, ?_⟩
    · intro c hc
      exact collapse_chars _ c (trimDash_mem hc)
    · intro c hc
      exact trimDash_head hc
    · intro c hc
      exact trimDash_last hc
    · exact trimDash_chain (collapse_chain _)

lemma normalizeName_fix (translit : Str → Str)
    (htr : ∀ t, (∀ c ∈ t, validOut c = true) → translit t = t)
    {l : Str} (hv : ValidName l) : normalizeName translit l = l := by
  obtain ⟨hchars, hne, hhead, hlast, hchain⟩ := hv
  simp only [normalizeName]
  rw [htr l hchars, map_goLower_fix hchars, collapse_fix l hchars hchain,
    trimDash_fix hhead hlast, if_neg hne]

/-- C3.  `NormalizeName` is total and idempotent.  For every input
the output uses only `[a-z0-9-]`, is non-empty, has no leading or
trailing dash and no two adjacent dashes; the empty input and every
input whose cleanup leaves nothing normalize to the literal
`"project"`; and normalizing twice equals normalizing once.  The
external Unicode transform chain enters as the parameter `translit`,
assumed only to leave already-normalized (`[a-z0-9-]`) strings
unchanged, which holds of the real chain since such strings are ASCII
with no combining marks. -/
theorem claim_C3_normalize_total_idempotent (translit : Str → Str)
    (htr : ∀ t, (∀ c ∈ t, validOut c = true) → translit t = t) (x : Str) :
    (∀ c ∈ normalizeName translit x, validOut c = true) ∧
    normalizeName translit x ≠ [] ∧
    (∀ c, (normalizeName translit x).head? = some c → c ≠ dashCh) ∧
    (∀ c, (normalizeName translit x).getLast? = some c → c ≠ dashCh) ∧
    List.Chain' NoTwoDash (normalizeName translit x) ∧
    normalizeName translit (normalizeName translit x) = normalizeName translit x ∧
    (x = [] → normalizeName translit x = ("project").data) ∧
    (trimDash (collapseNonAlnum ((translit x).map goLowerChar)) = [] →
      normalizeName translit x = ("project").data) := by
  obtain ⟨h1, h2, h3, h4, h5⟩ := normalizeName_valid translit x
  refine ⟨h1, h2, h3, h4, h5,
    normalizeName_fix translit htr (normalizeName_valid translit x), ?_, ?_⟩
  · intro hx
    subst hx
    simp only [normalizeName]
    rw [htr [] (by simp)]
    decide
  · intro h0
    simp only [normalizeName]
    rw [if_pos h0]

/-- C3 witness: a concrete mixed-case input with spaces and symbols,
with the identity transliteration (which satisfies the assumption). -/
theorem claim_C3_normalize_total_idempotent_witness :
    (∀ c ∈ normalizeName id ("  My Project!! 42 ").data, validOut c = true) ∧
    normalizeName id ("  My Project!! 42 ").data ≠ [] ∧
    (∀ c, (normalizeName id ("  My Project!! 42 ").data).head? = some c → c ≠ dashCh) ∧
    (∀ c, (normalizeName id ("  My Project!! 42 ").data).getLast? = some c → c ≠ dashCh) ∧
    List.Chain' NoTwoDash (normalizeName id ("  My Project!! 42 ").data) ∧
    normalizeName id (normalizeName id ("  My Project!! 42 ").data) =
      normalizeName id ("  My Project!! 42 ").data ∧
    (("  My Project!! 42 ").data = [] →
      normalizeName id ("  My Project!! 42 ").data = ("project").data) ∧
    (trimDash (collapseNonAlnum ((id ("  My Project!! 42 ").data).map goLowerChar)) = [] →
      normalizeName id ("  My Project!! 42 ").data = ("project").data) :=
  claim_C3_normalize_total_idempotent id (fun _ _ => rfl) ("  My Project!! 42 ").data

/-! ## C5: the repository component of the image tag -/

/-- C5 counterexample: for the configured name `My Project` the tag
returned by `GetImageTag` is not the normalized name followed by the
hash — the code uses the configured name verbatim, without
normalization. -/
theorem claim_C5_counterexample_verbatim_name :
    getImageTag ⟨("My Project").data, sampleContainer, ⟨[], []⟩⟩ [] ≠
      normalizeName id ("My Project").data ++ colonCh :: getConfigHashFromFile [] := by
  decide

/-- C5 amended.  The image tag is the configured project name used
verbatim, followed by `:` and the 12-character hash suffix; it equals
the normalized name followed by the hash exactly when the configured
name is already in normalized form (as is the case for configurations
generated by `init`). -/
theorem claim_C5_amended_tag_uses_config_name (cfg : Config) (bytes : List Nat) :
    getImageTag cfg bytes = cfg.name ++ colonCh :: getConfigHashFromFile bytes ∧
    (normalizeName id cfg.name = cfg.name →
      getImageTag cfg bytes =
        normalizeName id cfg.name ++ colonCh :: getConfigHashFromFile bytes) :=
  ⟨rfl, fun h => by rw [h]; rfl⟩

/-- C5 witness: for an already-normalized configured name the tag does
start with the normalized name. -/
theorem claim_C5_amended_tag_uses_config_name_witness :
    getImageTag ⟨("my-project").data, sampleContainer, ⟨[], []⟩⟩ [] =
      normalizeName id (Config.name ⟨("my-project").data, sampleContainer, ⟨[], []⟩⟩) ++
        colonCh :: getConfigHashFromFile [] :=
  (claim_C5_amended_tag_uses_config_name ⟨("my-project").data, sampleContainer, ⟨[], []⟩⟩
    []).2 (by decide)

/-! ## C6: the image/build validation rule -/

/-- C6 counterexample: a configuration with both `container.image` and
`container.build` set passes validation — the loader only rejects the
neither-set case, so "fails when both are present" is false. -/
theorem claim_C6_counterexample_both_set_accepted :
    validateConfig bothSetConfig = .ok bothSetConfig := by
  rfl

/-- C6 amended.  With a valid provider and, when a build section is
present, a non-empty dockerfile, validation succeeds exactly when
`container.image` or `container.build` is present: only the
neither-set case is a validation error; the both-set case is
accepted. -/
theorem claim_C6_amended_at_least_one_source (cfg : Config)
    (hp : cfg.container.provider = [] ∨ cfg.container.provider = ("docker").data ∨
      cfg.container.provider = ("podman").data)
    (hb : ∀ b, cfg.container.build = some b → b.dockerfile ≠ []) :
    isOkE (validateConfig cfg) = true ↔
      (cfg.container.image ≠ [] ∨ cfg.container.build ≠ none) := by
  cases hbld : cfg.container.build with
  | none =>
    by_cases himg : cfg.container.image = [] <;>
      rcases hp with hp | hp | hp <;>
        simp [validateConfig, isOkE, hp, hbld, himg]
  | some b =>
    have hdf : ¬b.dockerfile = [] := hb b hbld
    by_cases himg : cfg.container.image = [] <;>
      rcases hp with hp | hp | hp <;>
        simp [validateConfig, isOkE, hp, hbld, himg, hdf, apply_ite isOkE]

/-- C6 witness: an image-only configuration validates successfully. -/
theorem claim_C6_amended_at_least_one_source_witness :
    isOkE (validateConfig ⟨("p").data, sampleContainer, ⟨[], []⟩⟩) = true :=
  (claim_C6_amended_at_least_one_source ⟨("p").data, sampleContainer, ⟨[], []⟩⟩
    (Or.inr (Or.inl rfl)) (by simp [sampleContainer])).mpr (Or.inl (by decide))

/-! ## C7: three-way command resolution -/

/-- C7.  Command resolution is a total three-way classification: an
empty argument vector lists the declared scripts (it is not an error);
a first argument exactly matching a declared script name runs that
script through `/bin/sh -c` with the remaining arguments bound as
positional parameters; any other non-empty argument vector is passed
to the engine verbatim, never rejected as an unknown script. -/
theorem claim_C7_run_dispatch_classification (cfg : Config) (args : List Str) :
    (args = [] → runDispatch cfg args = .listScripts) ∧
    (∀ name rest s, args = name :: rest → cfg.getScript name = some s →
      runDispatch cfg args =
        .exec [("/bin/sh").data, ("-c").data, s.getCommandsAsStringWithArgs rest]) ∧
    (∀ name rest, args = name :: rest → cfg.getScript name = none →
      runDispatch cfg args = .exec (name :: rest)) := by
  refine ⟨fun h => by subst h; rfl, ?_, ?_⟩
  · intro name rest s hargs hs
    subst hargs
    simp [runDispatch, hs]
  · intro name rest hargs hs
    subst hargs
    simp [runDispatch, hs]

/-- C7 witness: on a configuration declaring the script `test`, the
empty invocation lists scripts, `test x` runs the script with `x`
bound, and `other` is passed through verbatim. -/
theorem claim_C7_run_dispatch_classification_witness :
    runDispatch testConfig [] = .listScripts ∧
    runDispatch testConfig [("test").data, ("x").data] =
      .exec [("/bin/sh").data, ("-c").data,
        testScript.getCommandsAsStringWithArgs [("x").data]] ∧
    runDispatch testConfig [("other").data] = .exec [("other").data] :=
  ⟨(claim_C7_run_dispatch_classification testConfig []).1 rfl,
   (claim_C7_run_dispatch_classification testConfig
     [("test").data, ("x").data]).2.1 _ _ _ rfl (by decide),
   (claim_C7_run_dispatch_classification testConfig
     [("other").data]).2.2 _ _ rfl (by decide)⟩

/-! ## C8: build and force semantics -/

/-- C8.  Evaluation of `Client.BuildImage` at the disputed input:
without `--force` and with the derived tag already present, the
engine's `BuildImage` is still invoked (first conjunct) — the claimed
and documented "do not rebuild an existing tag" behavior does not hold
in `Client.BuildImage`, which never consults `ImageExists` unless
`force` is set.  The force-path conjuncts show the removal semantics
the claim states: with `--force` and the tag present, `RemoveImage`
runs before `BuildImage`, and a failed removal aborts the build. -/
theorem claim_C8_build_invoked_even_without_force :
    clientBuildImage false true true true ("demo").data =
      ([.buildImage ("demo").data], true) ∧
    clientBuildImage true true true true ("demo").data =
      ([.removeImage ("demo").data, .buildImage ("demo").data], true) ∧
    clientBuildImage true true false true ("demo").data =
      ([.removeImage ("demo").data], false) :=
  ⟨rfl, rfl, rfl⟩

/-! ## C9: the interactive startup script -/

/-- C9 counterexample: for the startup command `export FOO=bar` the
script the code generates is not the snapshot/profile-fragment program
described by the specification — the code writes the startup commands
and a final `exec /bin/sh` into one script and never snapshots the
environment or writes a profile fragment (second conjunct shows the
exact command handed to the engine). -/
theorem claim_C9_counterexample_no_snapshot :
    startupScriptBody [("export FOO=bar").data] ≠
      specSnapshotScriptBody [("export FOO=bar").data] ∧
    runShellWithStartupCommand hookConfig =
      some [("/bin/sh").data, ("-c").data,
        heredocWrap (startupScriptBody [("export FOO=bar").data])] :=
  ⟨by decide, by rfl⟩

/-- Every startup command occurs verbatim inside the generated hook
section. -/
lemma hooks_section_split (hooks : List Str) (cmd : Str) (hmem : cmd ∈ hooks) :
    ∃ u v, hooks.foldr (fun c acc =>
        ("# Startup command").data ++ [nlCh] ++ c ++ [nlCh] ++ [nlCh] ++ acc) [] =
      u ++ cmd ++ v := by
  induction hooks with
  | nil => simp at hmem
  | cons a rest ih =>
    rcases List.mem_cons.mp hmem with h | h
    · subst h
      refine ⟨("# Startup command").data ++ [nlCh],
        [nlCh] ++ [nlCh] ++ rest.foldr (fun c acc =>
          ("# Startup command").data ++ [nlCh] ++ c ++ [nlCh] ++ [nlCh] ++ acc) [], ?_⟩
      rw [List.foldr_cons]
      simp
    · obtain ⟨u, v, e⟩ := ih h
      refine ⟨("# Startup command").data ++ [nlCh] ++ a ++ [nlCh] ++ [nlCh] ++ u, v, ?_⟩
      rw [List.foldr_cons, e]
      simp

/-- C9 amended.  When startup commands are declared, the engine is
handed `/bin/sh -c` on a here-document wrapper whose script inlines
each startup command verbatim (under fail-fast `set -e`) and ends by
replacing the same shell process with the interactive shell via
`exec /bin/sh`; environment variables exported by startup commands
therefore remain visible to the interactive shell because it inherits
the process environment — there is no before/after snapshot, no
environment diff, and no profile fragment to source. -/
theorem claim_C9_amended_startup_inline_exec (cfg : Config) (h : cfg.shell.initHook ≠ []) :
    runShellWithStartupCommand cfg =
      some [("/bin/sh").data, ("-c").data,
        heredocWrap (startupScriptBody cfg.shell.initHook)] ∧
    (∀ cmd ∈ cfg.shell.initHook,
      ∃ u v, startupScriptBody cfg.shell.initHook = u ++ cmd ++ v) ∧
    (∃ u, startupScriptBody cfg.shell.initHook =
      u ++ (("exec /bin/sh").data ++ [nlCh])) := by
  refine ⟨by simp [runShellWithStartupCommand, h], ?_, ?_⟩
  · intro cmd hmem
    obtain ⟨u, v, e⟩ := hooks_section_split cfg.shell.initHook cmd hmem
    refine ⟨("#!/bin/sh").data ++ [nlCh] ++ ("set -e").data ++ [nlCh] ++ [nlCh] ++ u,
      v ++ (("# Start interactive shell").data ++ [nlCh] ++ ("exec /bin/sh").data ++ [nlCh]),
      ?_⟩
    unfold startupScriptBody
    rw [e]
    simp
  · refine ⟨("#!/bin/sh").data ++ [nlCh] ++ ("set -e").data ++ [nlCh] ++ [nlCh] ++
      cfg.shell.initHook.foldr (fun c acc =>
        ("# Startup command").data ++ [nlCh] ++ c ++ [nlCh] ++ [nlCh] ++ acc) [] ++
      ("# Start interactive shell").data ++ [nlCh], ?_⟩
    unfold startupScriptBody
    simp

/-- C9 witness: the configuration whose only startup command is
`export FOO=bar`. -/
theorem claim_C9_amended_startup_inline_exec_witness :
    runShellWithStartupCommand hookConfig =
      some [("/bin/sh").data, ("-c").data,
        heredocWrap (startupScriptBody hookConfig.shell.initHook)] ∧
    (∀ cmd ∈ hookConfig.shell.initHook,
      ∃ u v, startupScriptBody hookConfig.shell.initHook = u ++ cmd ++ v) ∧
    (∃ u, startupScriptBody hookConfig.shell.initHook =
      u ++ (("exec /bin/sh").data ++ [nlCh])) :=
  claim_C9_amended_startup_inline_exec hookConfig (by decide)

/-! ## C10: script lookup on duplicate names -/

/-- `List.find?` returns the first element satisfying the predicate:
it satisfies the predicate and everything before it fails it. -/
lemma find?_first {α : Type} (p : α → Bool) : ∀ (l : List α) (a : α), l.find? p = some a →
    p a = true ∧ ∃ pre post, l = pre ++ a :: post ∧ ∀ t ∈ pre, p t = false := by
  intro l
  induction l with
  | nil => intro a ha; simp at ha
  | cons x xs ih =>
    intro a ha
    by_cases hx : p x
    · rw [List.find?_cons_of_pos _ hx] at ha
      obtain rfl : x = a := by simpa using ha
      exact ⟨hx, [], xs, rfl, by simp⟩
    · rw [List.find?_cons_of_neg _ hx] at ha
      obtain ⟨hp, pre, post, heq, hpre⟩ := ih a ha
      refine ⟨hp, x :: pre, post, by simp [heq], ?_⟩
      intro t ht
      rcases List.mem_cons.mp ht with h | h
      · subst h; simpa using hx
      · exact hpre t h

/-- C10.  `GetScript` resolves duplicates to the first declaration:
it reports not-found exactly when no declared script bears the name,
and when it returns a script, that script carries the requested name
and occurs in the declaration list strictly before any other script
with that name. -/
theorem claim_C10_get_script_first_match (cfg : Config) (name : Str) :
    (cfg.getScript name = none ↔ ∀ s ∈ cfg.shell.scripts, s.name ≠ name) ∧
    (∀ s, cfg.getScript name = some s → s.name = name ∧
      ∃ pre post, cfg.shell.scripts = pre ++ s :: post ∧ ∀ t ∈ pre, t.name ≠ name) := by
  constructor
  · simp [Config.getScript, List.find?_eq_none]
  · intro s hs
    obtain ⟨hp, pre, post, heq, hpre⟩ := find?_first _ _ _ hs
    refine ⟨by simpa using hp, pre, post, heq, ?_⟩
    intro t ht
    simpa using hpre t ht

/-- C10 witness: with two scripts both named `dup`, lookup returns the
first declaration. -/
theorem claim_C10_get_script_first_match_witness :
    dupFirst.name = ("dup").data ∧
    ∃ pre post, dupConfig.shell.scripts = pre ++ dupFirst :: post ∧
      ∀ t ∈ pre, t.name ≠ ("dup").data :=
  (claim_C10_get_script_first_match dupConfig ("dup").data).2 dupFirst (by decide)

end MikoShell
